import Mathlib

/-!
Shallow embedding of the `ts-downloader` repository
(`src/downloader/downloader.ts`, `src/downloader/download_chunk.ts`,
`src/downloader/interface.ts`, `src/downloader/file_writer.ts`).

JavaScript numbers that can be negative in the source (the configuration
fields `chunkSizeB`, `maxConcurrentDownloads`, `maxRetries`, and chunk
offsets) are modelled as `Int`; byte counts and file sizes are `Nat`.
Promises are modelled by explicit state passing: every effectful method
returns its result together with the mutated objects.  The external
collaborators (HTTP transport and the `WriteAt` writer) are modelled as an
environment of pure response functions.
-/

namespace TsDownloader

/-- `Math.ceil (a / b)` on natural numbers (`b = 0` is guarded everywhere
it is used with a positive divisor in the source). -/
def ceilDiv (a b : Nat) : Nat := (a + b - 1) / b

/-- Errors thrown by the source, one constructor per `new Error(...)` site;
wrapping constructors mirror the `catch` blocks that rethrow with context. -/
inductive JsError where
  /-- `Server does not support range requests` (downloader.ts:137). -/
  | rangeUnsupported : JsError
  /-- `Failed to download part; status code: s` (downloader.ts:147). -/
  | partStatus (status : Nat) : JsError
  /-- `Failed to write to file at offset off; size: len` (file_writer.ts:20). -/
  | writerFail (off : Int) (len : Nat) : JsError
  /-- `Failed to download part; error: e` (downloader.ts:150). -/
  | partFail (e : JsError) : JsError
  /-- `Failed to download batch; error: e` (downloader.ts:170). -/
  | batchFail (e : JsError) : JsError
  /-- `Failed to download file from url to out; error: e`
  (downloader.ts:212 and downloader.ts:234 use the same message shape). -/
  | downloadFail (url out : String) (e : JsError) : JsError
  deriving DecidableEq

/-- `DownloaderConfig` from interface.ts.  `partDeterminer` and
`chunkSizeDeterminer` map a file size to a count / size. -/
structure Config where
  maxRetries : Int
  maxConcurrentDownloads : Int
  partDeterminer : Nat → Nat
  chunkSizeDeterminer : Nat → Nat
  chunkSizeB : Int

/-- `DownloadChunk` from download_chunk.ts.  The writer reference is
externalised to the environment (all chunks of one download share one
writer), so only the numeric fields remain. -/
structure DownloadChunk where
  start : Int
  size : Int
  current : Int
  deriving DecidableEq

instance : Inhabited DownloadChunk := ⟨⟨0, 0, 0⟩⟩

instance {ε α : Type} [DecidableEq ε] [DecidableEq α] : DecidableEq (Except ε α)
  | .ok x, .ok y =>
    if h : x = y then .isTrue (by rw [h]) else .isFalse (by intro hc; cases hc; exact h rfl)
  | .error x, .error y =>
    if h : x = y then .isTrue (by rw [h]) else .isFalse (by intro hc; cases hc; exact h rfl)
  | .ok _, .error _ => .isFalse (by intro hc; cases hc)
  | .error _, .ok _ => .isFalse (by intro hc; cases hc)

/-- A writer behaviour: buffer length and absolute offset to the reported
byte count, or the error the writer throws. -/
def Writer := Nat → Int → Except JsError Nat

/-- Result of `DownloadChunk.write`: the returned count (or the writer's
error, which propagates uncaught), the mutated chunk, and the number of
`writeAt` invocations actually made (0 on the full-chunk short circuit). -/
structure WriteOut where
  result : Except JsError Nat
  chunk : DownloadChunk
  calls : Nat
  deriving DecidableEq

/-- `DownloadChunk.write` (download_chunk.ts:21-29):
`if (current >= size) return 0; n = writer.writeAt(p, start + current);
current += n; return n`.  The buffer `p` enters only through its length
`plen`, which is all the writer model consumes. -/
def DownloadChunk.write (c : DownloadChunk) (w : Writer) (plen : Nat) : WriteOut :=
  if c.size ≤ c.current then ⟨.ok 0, c, 0⟩
  else
    match w plen (c.start + c.current) with
    | .ok n => ⟨.ok n, { c with current := c.current + n }, 1⟩
    | .error e => ⟨.error e, c, 1⟩

/-- `DownloadChunk.getRange` (download_chunk.ts:35-37). -/
def DownloadChunk.getRange (c : DownloadChunk) : String :=
  "bytes=" ++ toString c.start ++ "-" ++ toString (c.start + c.size - 1)

/-- `DownloadImplementation.determineNumberOfChunks` (downloader.ts:73-82).
Returns the count together with the (possibly mutated) configuration:
the `chunkSizeB <= 0` branch writes `Math.ceil(fileSize / numberOfChunks)`
back into the shared configuration. -/
def determineNumberOfChunks (cfg : Config) (fileSize : Nat) : Nat × Config :=
  if cfg.chunkSizeB ≤ 0 then
    let numberOfChunks := cfg.partDeterminer fileSize
    (numberOfChunks, { cfg with chunkSizeB := (ceilDiv fileSize numberOfChunks : Int) })
  else
    (ceilDiv fileSize cfg.chunkSizeB.toNat, cfg)

/-- `DownloadImplementation.createChunks` (downloader.ts:84-91): the loop
`for i in [0, n)` pushing `new DownloadChunk(w, i * chunkSizeB, chunkSizeB, 0)`. -/
def createChunks (cfg : Config) (numberOfChunks : Nat) : List DownloadChunk :=
  (List.range numberOfChunks).map
    (fun (i : Nat) =>
      { start := (i : Int) * cfg.chunkSizeB, size := cfg.chunkSizeB, current := 0 })

/-! ### Arithmetic facts about `ceilDiv` -/

theorem ceilDiv_le_iff {b : Nat} (hb : 0 < b) (a m : Nat) :
    ceilDiv a b ≤ m ↔ a ≤ m * b := by
  unfold ceilDiv
  rw [Nat.div_le_iff_le_mul_add_pred hb]
  have hc : b * m = m * b := Nat.mul_comm b m
  omega

theorem le_ceilDiv_mul {b : Nat} (hb : 0 < b) (a : Nat) : a ≤ ceilDiv a b * b :=
  (ceilDiv_le_iff hb a (ceilDiv a b)).mp le_rfl

theorem ceilDiv_mul_lt {b : Nat} (hb : 0 < b) (a : Nat) : ceilDiv a b * b < a + b := by
  have h := Nat.div_mul_le_self (a + b - 1) b
  have h2 : a + b - 1 < a + b := by omega
  unfold ceilDiv
  exact Nat.lt_of_le_of_lt h h2

theorem ceilDiv_pos {a b : Nat} (ha : 0 < a) (hb : 0 < b) : 0 < ceilDiv a b := by
  by_contra h
  have h2 := (ceilDiv_le_iff hb a 0).mp (by omega)
  omega

theorem ceilDiv_zero_left (b : Nat) : ceilDiv 0 b = 0 := by
  unfold ceilDiv
  cases b with
  | zero => rfl
  | succ n => exact Nat.div_eq_of_lt (by omega)

theorem ceilDiv_add_self {b : Nat} (hb : 0 < b) (a : Nat) :
    ceilDiv (a + b) b = ceilDiv a b + 1 := by
  unfold ceilDiv
  have : a + b + b - 1 = (a + b - 1) + b := by omega
  rw [this, Nat.add_div_right _ hb]

/-! ### Batch partitioning -/

/-- The slice loop of `batchChunks` (downloader.ts:113-116):
`for (i = 0; i < chunks.length; i += numberChunksPerBatch)
   batches.push(chunks.slice(i, i + numberChunksPerBatch))`.
Fuel-indexed so the definition reduces by `rfl`; the fuel is always
instantiated with the list length, which suffices whenever `per > 0`
(the only way the source reaches this loop). -/
def chunkifyGo (per : Nat) : Nat → List DownloadChunk → List (List DownloadChunk)
  | 0, _ => []
  | _, [] => []
  | fuel + 1, c :: cs => (c :: cs).take per :: chunkifyGo per fuel ((c :: cs).drop per)

def chunkify (per : Nat) (l : List DownloadChunk) : List (List DownloadChunk) :=
  chunkifyGo per l.length l

/-- `DownloadImplementation.batchChunks` (downloader.ts:101-119). -/
def batchChunks (cfg : Config) (chunks : List DownloadChunk) : List (List DownloadChunk) :=
  if cfg.maxConcurrentDownloads ≤ 0 then
    chunks.map (fun chunk => [chunk])
  else if (chunks.length : Int) ≤ cfg.maxConcurrentDownloads then
    chunks.map (fun chunk => [chunk])
  else
    chunkify (ceilDiv chunks.length cfg.maxConcurrentDownloads.toNat) chunks

/-! ### The external environment and the per-part protocol -/

/-- A ranged GET response: HTTP status and body length (the body enters the
model only through its length, which is all `chunk.write` consumes). -/
structure PartResponse where
  status : Nat
  bodyLen : Nat

/-- External collaborators of one download: the HEAD probe's
`content-length` header (`none` models an unreported length, in which case
`getContentLength` substitutes the string "0"), the ranged GET responses
(indexed by attempt number and requested start offset), and the writer. -/
structure Env where
  contentLength : Option Nat
  respond : Nat → Int → PartResponse
  writeAt : Writer

/-- Result of one `downloadPart` call: the returned byte count or thrown
error, the (possibly mutated) chunk, and the number of writer invocations. -/
structure PartOut where
  result : Except JsError Nat
  chunk : DownloadChunk
  writes : Nat
  deriving DecidableEq

/-- `DownloadImplementation.downloadPart` (downloader.ts:126-152) at attempt
`a`.  Every `throw` inside the `try` block — including the 200 and
non-206 status throws — is caught by the method's own `catch`, which wraps
it as `Failed to download part; error: e` (`JsError.partFail`). -/
def downloadPart (env : Env) (a : Nat) (c : DownloadChunk) : PartOut :=
  let r := env.respond a c.start
  if r.status = 200 then ⟨.error (.partFail .rangeUnsupported), c, 0⟩
  else if r.status = 206 then
    let wo := c.write env.writeAt r.bodyLen
    match wo.result with
    | .ok n => ⟨.ok n, wo.chunk, wo.calls⟩
    | .error e => ⟨.error (.partFail e), wo.chunk, wo.calls⟩
  else ⟨.error (.partFail (.partStatus r.status)), c, 0⟩

/-- Result of running one batch (or one whole attempt): the summed byte
count or first error, the mutated chunks, the number of ranged GET requests
issued, and the number of writer invocations. -/
structure BatchOut where
  result : Except JsError Nat
  chunks : List DownloadChunk
  requests : Nat
  writes : Nat
  deriving DecidableEq

/-- The sequential loop of `downloadBatch` (downloader.ts:161-167): parts
run strictly in order and the loop stops at the first error, leaving the
remaining chunks untouched.  Each `downloadPart` call issues exactly one
ranged GET request (the fetch happens before any status check). -/
def runBatchGo (env : Env) (a : Nat) : List DownloadChunk → BatchOut
  | [] => ⟨.ok 0, [], 0, 0⟩
  | c :: cs =>
    let p := downloadPart env a c
    match p.result with
    | .error e => ⟨.error e, p.chunk :: cs, 1, p.writes⟩
    | .ok n =>
      let rest := runBatchGo env a cs
      { result :=
          match rest.result with
          | .ok m => .ok (n + m)
          | .error e => .error e,
        chunks := p.chunk :: rest.chunks,
        requests := 1 + rest.requests,
        writes := p.writes + rest.writes }

/-- `DownloadImplementation.downloadBatch` (downloader.ts:159-172): the
method's `catch` wraps the escaping error once as
`Failed to download batch; error: e`. -/
def downloadBatch (env : Env) (a : Nat) (batch : List DownloadChunk) : BatchOut :=
  let r := runBatchGo env a batch
  { r with result :=
      match r.result with
      | .ok n => .ok n
      | .error e => .error (.batchFail e) }

/-- `await Promise.all(batches.map(downloadBatch))` (downloader.ts:194-196).
All batches run to completion (there is no cancellation: batches touch
disjoint chunks, so the final chunk states do not depend on the
interleaving); the attempt's result is the sum of the per-batch sums, or
the first rejected batch's error. -/
def execAttempt (env : Env) (a : Nat) (batches : List (List DownloadChunk)) : BatchOut :=
  let outs := batches.map (downloadBatch env a)
  { result :=
      match outs.findSome? (fun o => match o.result with | .error e => some e | .ok _ => none) with
      | some e => .error e
      | none => .ok (outs.map (fun o => match o.result with | .ok n => n | .error _ => 0)).sum,
    chunks := [],
    requests := (outs.map (fun o => o.requests)).sum,
    writes := (outs.map (fun o => o.writes)).sum }

/-- Chunk states after an attempt: the batch list with every batch replaced
by its mutated chunks. -/
def stepBatches (env : Env) (a : Nat) (batches : List (List DownloadChunk)) :
    List (List DownloadChunk) :=
  batches.map (fun b => (downloadBatch env a b).chunks)

/-! ### The retry loop and the download pipeline -/

/-- Result of the retry loop (downloader.ts:186-203): final `error` and
`writtenBytes` variables, the chunk states after the loop, the number of
attempts executed, the totals of requests and writer calls, and the chunk
states handed to each executed attempt (`inputs`, in chronological order). -/
structure LoopOut where
  error : Option JsError
  written : Nat
  state : List (List DownloadChunk)
  attempts : Nat
  requests : Nat
  writes : Nat
  inputs : List (List (List DownloadChunk))

/-- The `for (let i = 0; i < maxRetries; i++)` loop (downloader.ts:192-203),
with `rem` the remaining iterations and `err`/`wb` the current values of the
`error` and `writtenBytes` variables.  On success the loop breaks with the
attempt's sum and `error = null`; on failure it records the error and
continues on the SAME chunk objects (the attempt's mutated state). -/
def retryGo (env : Env) : Nat → Nat → List (List DownloadChunk) → Option JsError → Nat → LoopOut
  | _, 0, s, err, wb => ⟨err, wb, s, 0, 0, 0, []⟩
  | i, rem + 1, s, _err, wb =>
    let o := execAttempt env i s
    let s' := stepBatches env i s
    match o.result with
    | .ok n => ⟨none, n, s', 1, o.requests, o.writes, [s]⟩
    | .error e =>
      let rest := retryGo env (i + 1) rem s' (some e) wb
      ⟨rest.error, rest.written, rest.state, rest.attempts + 1,
        o.requests + rest.requests, o.writes + rest.writes, s :: rest.inputs⟩

/-- The segment/batch plan built ONCE per download, before the retry loop
(downloader.ts:181-185). -/
def initialPlan (cfg : Config) (env : Env) : List (List DownloadChunk) :=
  let fileSize := env.contentLength.getD 0
  let (numberOfChunks, cfg') := determineNumberOfChunks cfg fileSize
  batchChunks cfg' (createChunks cfg' numberOfChunks)

/-- Observable outcome of one `download` call: the resolved byte count or
the rejection, the final chunk states, attempt/request/write counts, the
per-attempt input states, and the configuration object after the call
(shared by reference in the source, hence returned). -/
structure DownloadOut where
  result : Except JsError Nat
  state : List (List DownloadChunk)
  attempts : Nat
  requests : Nat
  writes : Nat
  inputs : List (List (List DownloadChunk))
  config : Config

/-- `DownloadImplementation.download` (downloader.ts:179-214): size
discovery (`getContentLength` defaults a missing header to "0", and
`getFileSize` parses it, so an unreported length yields file size 0 without
error), ONE planning pass, the retry loop, and the final
`if (error) throw error` wrapped by the method's own `catch` as
`Failed to download file from url to out; error: e`. -/
def implDownload (cfg : Config) (url out : String) (env : Env) : DownloadOut :=
  let fileSize := env.contentLength.getD 0
  let (numberOfChunks, cfg') := determineNumberOfChunks cfg fileSize
  let chunks := createChunks cfg' numberOfChunks
  let batches := batchChunks cfg' chunks
  let lo := retryGo env 0 cfg.maxRetries.toNat batches none 0
  { result :=
      match lo.error with
      | some e => .error (.downloadFail url out e)
      | none => .ok lo.written,
    state := lo.state,
    attempts := lo.attempts,
    requests := lo.requests,
    writes := lo.writes,
    inputs := lo.inputs,
    config := cfg' }

/-- `Downloader.download` (downloader.ts:228-236): runs the implementation
and wraps any rejection once more with the same
`Failed to download file from url to out; error: e` context. -/
def Downloader.download (cfg : Config) (url out : String) (env : Env) : DownloadOut :=
  let o := implDownload cfg url out env
  { o with result :=
      match o.result with
      | .ok n => .ok n
      | .error e => .error (.downloadFail url out e) }

/-- 1 MB, from the `SizeUnit` enum (downloader.ts:239-244). -/
def sizeUnitMB : Nat := 1024 * 1024

/-- `defaultDownloaderConfig` (downloader.ts:250-268). -/
def defaultDownloaderConfig : Config :=
  { chunkSizeB := -1,
    maxConcurrentDownloads := 32,
    partDeterminer := fun fileSize =>
      if fileSize < 1 * sizeUnitMB then 1
      else if fileSize < 10 * sizeUnitMB then 4
      else if fileSize < 100 * sizeUnitMB then 16
      else 32,
    chunkSizeDeterminer := fun fileSize =>
      if fileSize < 1 * sizeUnitMB then 1 * sizeUnitMB
      else if fileSize < 10 * sizeUnitMB then 2 * sizeUnitMB
      else if fileSize < 100 * sizeUnitMB then 10 * sizeUnitMB
      else 20 * sizeUnitMB,
    maxRetries := 3 }

/-- The chunk states fed to attempt `i + k` when the loop reached attempt
`i` holding states `s`: `k = 0` sees `s` itself, and each further attempt
sees whatever the previous one left behind.  With `i = 0` and
`s = initialPlan cfg env` this is the state fed to attempt `k` of a
download. -/
def attemptStateFrom (env : Env) (i : Nat) (s : List (List DownloadChunk)) :
    Nat → List (List DownloadChunk)
  | 0 => s
  | k + 1 => stepBatches env (i + k) (attemptStateFrom env i s k)


/-! ### Lemmas about the retry loop -/

theorem attemptStateFrom_succ (env : Env) (i : Nat) (s : List (List DownloadChunk)) :
    ∀ k, attemptStateFrom env i s (k + 1) =
      attemptStateFrom env (i + 1) (stepBatches env i s) k := by
  intro k
  induction k with
  | zero => rfl
  | succ k ih =>
    show stepBatches env (i + (k + 1)) (attemptStateFrom env i s (k + 1)) = _
    rw [ih]
    show _ = stepBatches env ((i + 1) + k) (attemptStateFrom env (i + 1) (stepBatches env i s) k)
    congr 1
    omega

/-- One unfolding of the loop body. -/
theorem retryGo_succ (env : Env) (i m : Nat) (s : List (List DownloadChunk))
    (err : Option JsError) (wb : Nat) :
    retryGo env i (m + 1) s err wb =
      match (execAttempt env i s).result with
      | .ok n =>
        ⟨none, n, stepBatches env i s, 1,
          (execAttempt env i s).requests, (execAttempt env i s).writes, [s]⟩
      | .error e =>
        let rest := retryGo env (i + 1) m (stepBatches env i s) (some e) wb
        ⟨rest.error, rest.written, rest.state, rest.attempts + 1,
          (execAttempt env i s).requests + rest.requests,
          (execAttempt env i s).writes + rest.writes, s :: rest.inputs⟩ := rfl

theorem retryGo_succ_ok {env : Env} {i : Nat} {s : List (List DownloadChunk)} {n : Nat}
    (hok : (execAttempt env i s).result = .ok n) (m : Nat) (err : Option JsError) (wb : Nat) :
    retryGo env i (m + 1) s err wb =
      ⟨none, n, stepBatches env i s, 1,
        (execAttempt env i s).requests, (execAttempt env i s).writes, [s]⟩ := by
  rw [retryGo_succ, hok]

theorem retryGo_succ_error {env : Env} {i : Nat} {s : List (List DownloadChunk)} {e : JsError}
    (he : (execAttempt env i s).result = .error e) (m : Nat) (err : Option JsError) (wb : Nat) :
    retryGo env i (m + 1) s err wb =
      ⟨(retryGo env (i + 1) m (stepBatches env i s) (some e) wb).error,
        (retryGo env (i + 1) m (stepBatches env i s) (some e) wb).written,
        (retryGo env (i + 1) m (stepBatches env i s) (some e) wb).state,
        (retryGo env (i + 1) m (stepBatches env i s) (some e) wb).attempts + 1,
        (execAttempt env i s).requests +
          (retryGo env (i + 1) m (stepBatches env i s) (some e) wb).requests,
        (execAttempt env i s).writes +
          (retryGo env (i + 1) m (stepBatches env i s) (some e) wb).writes,
        s :: (retryGo env (i + 1) m (stepBatches env i s) (some e) wb).inputs⟩ := by
  rw [retryGo_succ, he]

/-- If every remaining attempt fails, the loop runs all of them, keeps the
initial `writtenBytes`, and ends holding the LAST attempt's error. -/
theorem retryGo_all_fail (env : Env) (E : Nat → JsError) :
    ∀ rem i s err wb, 0 < rem →
    (∀ j, j < rem →
      (execAttempt env (i + j) (attemptStateFrom env i s j)).result = .error (E (i + j))) →
    (retryGo env i rem s err wb).error = some (E (i + rem - 1)) ∧
    (retryGo env i rem s err wb).attempts = rem ∧
    (retryGo env i rem s err wb).written = wb := by
  intro rem
  induction rem with
  | zero => intro i s err wb h; exact absurd h (Nat.lt_irrefl 0)
  | succ m ih =>
    intro i s err wb _ hfail
    have h0 : (execAttempt env i s).result = .error (E i) := hfail 0 (Nat.succ_pos m)
    rw [retryGo_succ_error h0]
    cases m with
    | zero => exact ⟨rfl, rfl, rfl⟩
    | succ m' =>
      have hshift : ∀ j, j < m' + 1 →
          (execAttempt env ((i + 1) + j)
            (attemptStateFrom env (i + 1) (stepBatches env i s) j)).result =
          .error (E ((i + 1) + j)) := by
        intro j hj
        rw [← attemptStateFrom_succ]
        have hj2 := hfail (j + 1) (by omega)
        have harith : i + (j + 1) = (i + 1) + j := by omega
        rw [harith] at hj2
        exact hj2
      have h := ih (i + 1) (stepBatches env i s) (some (E i)) wb (Nat.succ_pos m') hshift
      refine ⟨?_, ?_, h.2.2⟩
      · rw [h.1]
        congr 2
        omega
      · rw [h.2.1]

/-- If attempts `0..j-1` fail and attempt `j` succeeds (within the retry
budget), the loop breaks at attempt `j`: `error` is cleared, the attempt's
sum is returned, and exactly `j + 1` attempts ran. -/
theorem retryGo_first_ok (env : Env) :
    ∀ j rem i s err wb n,
    (∀ t, t < j → ∃ e,
      (execAttempt env (i + t) (attemptStateFrom env i s t)).result = .error e) →
    (execAttempt env (i + j) (attemptStateFrom env i s j)).result = .ok n →
    j < rem →
    (retryGo env i rem s err wb).error = none ∧
    (retryGo env i rem s err wb).written = n ∧
    (retryGo env i rem s err wb).attempts = j + 1 := by
  intro j
  induction j with
  | zero =>
    intro rem i s err wb n _ hok hrem
    obtain ⟨m, rfl⟩ : ∃ m, rem = m + 1 := ⟨rem - 1, by omega⟩
    have hok' : (execAttempt env i s).result = .ok n := hok
    rw [retryGo_succ_ok hok']
    exact ⟨rfl, rfl, rfl⟩
  | succ j ih =>
    intro rem i s err wb n hfail hok hrem
    obtain ⟨m, rfl⟩ : ∃ m, rem = m + 1 := ⟨rem - 1, by omega⟩
    obtain ⟨e0, he0⟩ := hfail 0 (Nat.succ_pos j)
    have he0' : (execAttempt env i s).result = .error e0 := he0
    rw [retryGo_succ_error he0']
    have hfail' : ∀ t, t < j → ∃ e,
        (execAttempt env ((i + 1) + t)
          (attemptStateFrom env (i + 1) (stepBatches env i s) t)).result = .error e := by
      intro t ht
      rw [← attemptStateFrom_succ]
      obtain ⟨e, he⟩ := hfail (t + 1) (by omega)
      have harith : i + (t + 1) = (i + 1) + t := by omega
      rw [harith] at he
      exact ⟨e, he⟩
    have hok2 : (execAttempt env ((i + 1) + j)
        (attemptStateFrom env (i + 1) (stepBatches env i s) j)).result = .ok n := by
      rw [← attemptStateFrom_succ]
      have harith : i + (j + 1) = (i + 1) + j := by omega
      rw [harith] at hok
      exact hok
    have h := ih m (i + 1) (stepBatches env i s) (some e0) wb n hfail' hok2 (by omega)
    exact ⟨h.1, h.2.1, by rw [h.2.2]⟩

/-- The first executed attempt's input is the state the loop started from. -/
theorem retryGo_inputs_head (env : Env) :
    ∀ m i s err wb, (retryGo env i (m + 1) s err wb).inputs.getD 0 [] = s := by
  intro m i s err wb
  cases hres : (execAttempt env i s).result with
  | ok n => rw [retryGo_succ_ok hres]; rfl
  | error e => rw [retryGo_succ_error hres]; rfl

/-- Each executed attempt after the first runs on exactly the chunk states
the previous attempt left behind — the loop never rebuilds the plan. -/
theorem retryGo_inputs_chain (env : Env) :
    ∀ rem i s err wb j, j + 1 < (retryGo env i rem s err wb).inputs.length →
    (retryGo env i rem s err wb).inputs.getD (j + 1) [] =
      stepBatches env (i + j) ((retryGo env i rem s err wb).inputs.getD j []) := by
  intro rem
  induction rem with
  | zero => intro i s err wb j h; simp [retryGo] at h
  | succ m ih =>
    intro i s err wb j h
    cases hres : (execAttempt env i s).result with
    | ok n =>
      rw [retryGo_succ_ok hres] at h
      simp at h
    | error e =>
      rw [retryGo_succ_error hres] at h ⊢
      simp only [List.length_cons] at h
      cases j with
      | zero =>
        show (retryGo env (i + 1) m (stepBatches env i s) (some e) wb).inputs.getD 0 [] =
          stepBatches env (i + 0) s
        cases m with
        | zero => simp [retryGo] at h
        | succ m' => rw [retryGo_inputs_head]; rfl
      | succ t =>
        show (retryGo env (i + 1) m (stepBatches env i s) (some e) wb).inputs.getD (t + 1) [] =
          stepBatches env (i + (t + 1))
            ((retryGo env (i + 1) m (stepBatches env i s) (some e) wb).inputs.getD t [])
        have harith : i + (t + 1) = (i + 1) + t := by omega
        rw [harith]
        exact ih (i + 1) (stepBatches env i s) (some e) wb t (by omega)

/-! ### Lemmas about the slice loop -/

theorem ceilDiv_eq_one {a b : Nat} (ha : 0 < a) (hab : a ≤ b) : ceilDiv a b = 1 := by
  have hb : 0 < b := by omega
  have h1 := ceilDiv_pos ha hb
  have h2 := (ceilDiv_le_iff hb a 1).mpr (by omega)
  omega

theorem ceilDiv_sub_self {b : Nat} (hb : 0 < b) {a : Nat} (ha : 0 < a) :
    ceilDiv a b = ceilDiv (a - b) b + 1 := by
  rcases le_or_lt a b with hab | hab
  · rw [ceilDiv_eq_one ha hab]
    have : a - b = 0 := by omega
    rw [this, ceilDiv_zero_left]
  · have h : a = (a - b) + b := by omega
    calc ceilDiv a b = ceilDiv ((a - b) + b) b := by rw [← h]
      _ = ceilDiv (a - b) b + 1 := ceilDiv_add_self hb (a - b)

theorem chunkifyGo_nil (per : Nat) : ∀ fuel, chunkifyGo per fuel [] = [] := by
  intro fuel
  cases fuel with
  | zero => rfl
  | succ f => rfl

theorem chunkifyGo_flatten {per : Nat} (hper : 0 < per) :
    ∀ fuel l, l.length ≤ fuel → (chunkifyGo per fuel l).flatten = l := by
  intro fuel
  induction fuel with
  | zero =>
    intro l hl
    have : l = [] := List.length_eq_zero.mp (by omega)
    rw [this, chunkifyGo_nil]
    rfl
  | succ f ih =>
    intro l hl
    cases l with
    | nil => rfl
    | cons c cs =>
      show ((c :: cs).take per :: chunkifyGo per f ((c :: cs).drop per)).flatten = c :: cs
      rw [List.flatten_cons, ih ((c :: cs).drop per)
        (by rw [List.length_drop]; rw [List.length_cons] at hl ⊢; omega)]
      exact List.take_append_drop per (c :: cs)

theorem chunkifyGo_length {per : Nat} (hper : 0 < per) :
    ∀ fuel l, l.length ≤ fuel → (chunkifyGo per fuel l).length = ceilDiv l.length per := by
  intro fuel
  induction fuel with
  | zero =>
    intro l hl
    have : l = [] := List.length_eq_zero.mp (by omega)
    rw [this, chunkifyGo_nil]
    rw [show ([] : List DownloadChunk).length = 0 from rfl, ceilDiv_zero_left]
    rfl
  | succ f ih =>
    intro l hl
    cases l with
    | nil => rw [chunkifyGo_nil, show ([] : List DownloadChunk).length = 0 from rfl, ceilDiv_zero_left]; rfl
    | cons c cs =>
      show ((c :: cs).take per :: chunkifyGo per f ((c :: cs).drop per)).length = _
      rw [List.length_cons, ih ((c :: cs).drop per)
        (by rw [List.length_drop]; rw [List.length_cons] at hl ⊢; omega)]
      rw [List.length_drop]
      have hpos : 0 < (c :: cs).length := by simp
      rw [ceilDiv_sub_self hper hpos]

theorem chunkifyGo_mem {per : Nat} (hper : 0 < per) :
    ∀ fuel l, l.length ≤ fuel → ∀ b ∈ chunkifyGo per fuel l, b ≠ [] ∧ b.length ≤ per := by
  intro fuel
  induction fuel with
  | zero =>
    intro l hl b hb
    have : l = [] := List.length_eq_zero.mp (by omega)
    rw [this, chunkifyGo_nil] at hb
    exact absurd hb (List.not_mem_nil b)
  | succ f ih =>
    intro l hl b hb
    cases l with
    | nil => rw [chunkifyGo_nil] at hb; exact absurd hb (List.not_mem_nil b)
    | cons c cs =>
      rcases List.mem_cons.mp hb with hb1 | hb2
      · subst hb1
        constructor
        · obtain ⟨p, rfl⟩ : ∃ p, per = p + 1 := ⟨per - 1, by omega⟩
          simp [List.take]
        · rw [List.length_take]
          omega
      · exact ih ((c :: cs).drop per)
          (by rw [List.length_drop]; rw [List.length_cons] at hl ⊢; omega) b hb2

theorem chunkifyGo_dropLast {per : Nat} (hper : 0 < per) :
    ∀ fuel l, l.length ≤ fuel → ∀ b ∈ (chunkifyGo per fuel l).dropLast, b.length = per := by
  intro fuel
  induction fuel with
  | zero =>
    intro l hl b hb
    have : l = [] := List.length_eq_zero.mp (by omega)
    rw [this, chunkifyGo_nil] at hb
    exact absurd hb (List.not_mem_nil b)
  | succ f ih =>
    intro l hl b hb
    cases l with
    | nil => rw [chunkifyGo_nil] at hb; exact absurd hb (List.not_mem_nil b)
    | cons c cs =>
      rw [show chunkifyGo per (f + 1) (c :: cs) =
        (c :: cs).take per :: chunkifyGo per f ((c :: cs).drop per) from rfl] at hb
      rcases hd : (c :: cs).drop per with _ | ⟨d, ds⟩
      · rw [hd, chunkifyGo_nil] at hb
        exact absurd hb (List.not_mem_nil b)
      · have hlen : (d :: ds).length ≤ f := by
          have h2 := congrArg List.length hd
          rw [List.length_drop] at h2
          simp only [List.length_cons] at h2 hl ⊢
          omega
        have hne : chunkifyGo per f ((c :: cs).drop per) ≠ [] := by
          rw [hd]
          obtain ⟨f2, rfl⟩ : ∃ f2, f = f2 + 1 :=
            ⟨f - 1, by rw [List.length_cons] at hlen; omega⟩
          exact List.cons_ne_nil _ _
        rw [List.dropLast_cons_of_ne_nil hne] at hb
        rcases List.mem_cons.mp hb with hb1 | hb2
        · subst hb1
          rw [List.length_take]
          have hdrop : per < (c :: cs).length := by
            by_contra hcon
            have hnil : (c :: cs).drop per = [] := List.drop_eq_nil_of_le (by omega)
            rw [hnil] at hd
            exact List.noConfusion hd
          omega
        · exact ih ((c :: cs).drop per)
            (by rw [List.length_drop]; rw [List.length_cons] at hl ⊢; omega) b hb2

theorem chunkify_batches_le {n k : Nat} (hk : 0 < k) (hn : 0 < n) :
    ceilDiv n (ceilDiv n k) ≤ k := by
  have hper : 0 < ceilDiv n k := ceilDiv_pos hn hk
  rw [ceilDiv_le_iff hper]
  rw [Nat.mul_comm]
  exact le_ceilDiv_mul hk n

/-! ### Tiling arithmetic for segment ranges -/

theorem tile_cover {C : Nat} (hC : 0 < C) (n off : Nat) :
    off < n * C ↔ ∃ i, i < n ∧ i * C ≤ off ∧ off < (i + 1) * C := by
  constructor
  · intro h
    refine ⟨off / C, ?_, Nat.div_mul_le_self off C, ?_⟩
    · rw [Nat.div_lt_iff_lt_mul hC]
      exact h
    · have h1 := Nat.div_add_mod off C
      have h2 := Nat.mod_lt off hC
      have h3 : (off / C + 1) * C = off / C * C + C := by ring
      have h4 : C * (off / C) = off / C * C := Nat.mul_comm _ _
      omega
  · rintro ⟨i, hin, _, h2⟩
    calc off < (i + 1) * C := h2
      _ ≤ n * C := Nat.mul_le_mul_right C (by omega)

theorem ranges_disjoint {C : Int} (hC : 0 < C) {a b : Nat} (hab : a < b) (off : Int) :
    ¬((a : Int) * C ≤ off ∧ off < (a : Int) * C + C ∧
      (b : Int) * C ≤ off ∧ off < (b : Int) * C + C) := by
  rintro ⟨_, h2, h3, _⟩
  have hab2 : (a : Int) + 1 ≤ (b : Int) := by
    have : (a : Int) < (b : Int) := by exact_mod_cast hab
    omega
  have hle : ((a : Int) + 1) * C ≤ (b : Int) * C :=
    mul_le_mul_of_nonneg_right hab2 (le_of_lt hC)
  have heq : (a : Int) * C + C = ((a : Int) + 1) * C := by ring
  linarith

theorem createChunks_length (cfg : Config) (n : Nat) : (createChunks cfg n).length = n := by
  rw [createChunks, List.length_map, List.length_range]

theorem createChunks_getD (cfg : Config) {n i : Nat} (hi : i < n) :
    (createChunks cfg n).getD i default =
      ⟨(i : Int) * cfg.chunkSizeB, cfg.chunkSizeB, 0⟩ := by
  have hlen : i < (createChunks cfg n).length := by rw [createChunks_length]; exact hi
  rw [List.getD_eq_getElem _ _ hlen]
  simp only [createChunks, List.getElem_map, List.getElem_range]

/-! ### Claim C3 -/

/-- C3: for every file size `S`, if the configured fixed segment size
`chunkSizeB` is positive then `determineNumberOfChunks` returns
`ceil(S / chunkSizeB)` — characterised as the least count whose total
covers `S` — and leaves the configuration unchanged; if `chunkSizeB <= 0`
it returns `partDeterminer S` and, as a side effect, sets `chunkSizeB` to
`ceil(S / partDeterminer S)`. -/
theorem claim_C3_determineNumberOfChunks (cfg : Config) (S : Nat) :
    (0 < cfg.chunkSizeB →
      (determineNumberOfChunks cfg S).2 = cfg ∧
      (determineNumberOfChunks cfg S).1 = ceilDiv S cfg.chunkSizeB.toNat ∧
      S ≤ (determineNumberOfChunks cfg S).1 * cfg.chunkSizeB.toNat ∧
      (∀ m, S ≤ m * cfg.chunkSizeB.toNat → (determineNumberOfChunks cfg S).1 ≤ m)) ∧
    (cfg.chunkSizeB ≤ 0 →
      (determineNumberOfChunks cfg S).1 = cfg.partDeterminer S ∧
      (determineNumberOfChunks cfg S).2 =
        { cfg with chunkSizeB := (ceilDiv S (cfg.partDeterminer S) : Int) } ∧
      (0 < cfg.partDeterminer S →
        S ≤ ceilDiv S (cfg.partDeterminer S) * cfg.partDeterminer S ∧
        ∀ m, S ≤ m * cfg.partDeterminer S → ceilDiv S (cfg.partDeterminer S) ≤ m)) := by
  constructor
  · intro h
    have hnot : ¬ cfg.chunkSizeB ≤ 0 := by omega
    have htn : 0 < cfg.chunkSizeB.toNat := by omega
    rw [determineNumberOfChunks, if_neg hnot]
    exact ⟨rfl, rfl, le_ceilDiv_mul htn S, fun m hm => (ceilDiv_le_iff htn S m).mpr hm⟩
  · intro h
    rw [determineNumberOfChunks, if_pos h]
    exact ⟨rfl, rfl, fun hpd =>
      ⟨le_ceilDiv_mul hpd S, fun m hm => (ceilDiv_le_iff hpd S m).mpr hm⟩⟩

/-- A configuration with a positive fixed segment size. -/
def cfgFixed : Config :=
  { maxRetries := 3,
    maxConcurrentDownloads := 4,
    partDeterminer := fun _ => 7,
    chunkSizeDeterminer := fun _ => 0,
    chunkSizeB := 100 }

/-- A configuration with no fixed segment size (count-driven planning). -/
def cfgAuto : Config :=
  { maxRetries := 3,
    maxConcurrentDownloads := 4,
    partDeterminer := fun s => if s ≤ 300 then 2 else 4,
    chunkSizeDeterminer := fun _ => 0,
    chunkSizeB := -1 }

theorem claim_C3_witness :
    ((determineNumberOfChunks cfgFixed 250).2 = cfgFixed ∧
      (determineNumberOfChunks cfgFixed 250).1 = 3) ∧
    ((determineNumberOfChunks cfgAuto 250).1 = cfgAuto.partDeterminer 250 ∧
      (determineNumberOfChunks cfgAuto 250).2.chunkSizeB = 125) := by
  have h1 := (claim_C3_determineNumberOfChunks cfgFixed 250).1 (by decide)
  have h2 := (claim_C3_determineNumberOfChunks cfgAuto 250).2 (by decide)
  refine ⟨⟨h1.1, ?_⟩, h2.1, ?_⟩
  · rw [h1.2.1]
    decide
  · rw [h2.2.1]
    decide

/-! ### Claim C7 (corrected) -/

/-- A writer that reports more bytes written than the segment has left. -/
def overWriter : Writer := fun _ _ => .ok 2

/-- Refutes C7 as stated: on a segment with `length = 1, writtenSoFar = 0`
(which satisfies the invariant), a write whose writer reports 2 bytes
leaves `writtenSoFar = 2 > length` — the code adds the reported count
unchecked, so the invariant is NOT preserved under arbitrary reported
byte counts. -/
theorem claim_C7_counterexample :
    (0 ≤ (⟨0, 1, 0⟩ : DownloadChunk).current ∧
      (⟨0, 1, 0⟩ : DownloadChunk).current ≤ (⟨0, 1, 0⟩ : DownloadChunk).size) ∧
    (DownloadChunk.write ⟨0, 1, 0⟩ overWriter 2).chunk.current = 2 ∧
    ¬ ((DownloadChunk.write ⟨0, 1, 0⟩ overWriter 2).chunk.current ≤
        (DownloadChunk.write ⟨0, 1, 0⟩ overWriter 2).chunk.size) := by
  decide

/-- C7 (amended): the invariant `0 <= writtenSoFar <= length` holds for
freshly created segments (given a nonnegative configured segment size) and
is preserved by `write` whenever the writer reports at most
`length - writtenSoFar` bytes; and whenever `writtenSoFar == length`, a
further `write` returns 0, makes no writer call, and leaves the segment
unchanged. -/
theorem claim_C7_write_invariant (c : DownloadChunk) (w : Writer) (plen : Nat) :
    (∀ cfg : Config, 0 ≤ cfg.chunkSizeB → ∀ k : Nat, ∀ ch ∈ createChunks cfg k,
      ch.current = 0 ∧ 0 ≤ ch.current ∧ ch.current ≤ ch.size) ∧
    (0 ≤ c.current → c.current ≤ c.size →
      (∀ n : Nat, w plen (c.start + c.current) = .ok n → (n : Int) ≤ c.size - c.current) →
      0 ≤ (c.write w plen).chunk.current ∧
        (c.write w plen).chunk.current ≤ (c.write w plen).chunk.size) ∧
    (c.current = c.size →
      (c.write w plen).result = .ok 0 ∧ (c.write w plen).chunk = c ∧
        (c.write w plen).calls = 0) := by
  refine ⟨?_, ?_, ?_⟩
  · intro cfg hcfg k ch hch
    simp only [createChunks, List.mem_map, List.mem_range] at hch
    obtain ⟨i, _, rfl⟩ := hch
    exact ⟨rfl, le_refl 0, hcfg⟩
  · intro h0 hle hw
    rw [DownloadChunk.write]
    by_cases hfull : c.size ≤ c.current
    · rw [if_pos hfull]
      exact ⟨h0, hle⟩
    · rw [if_neg hfull]
      cases hres : w plen (c.start + c.current) with
      | ok n =>
        have hn := hw n hres
        constructor
        · show 0 ≤ c.current + (n : Int)
          omega
        · show c.current + (n : Int) ≤ c.size
          omega
      | error e => exact ⟨h0, hle⟩
  · intro heq
    rw [DownloadChunk.write, if_pos (le_of_eq heq.symm)]
    exact ⟨rfl, rfl, rfl⟩

/-- A writer that always reports 3 bytes written. -/
def okThreeWriter : Writer := fun _ _ => .ok 3

theorem claim_C7_witness :
    (0 ≤ (DownloadChunk.write ⟨0, 10, 4⟩ okThreeWriter 3).chunk.current ∧
      (DownloadChunk.write ⟨0, 10, 4⟩ okThreeWriter 3).chunk.current ≤
        (DownloadChunk.write ⟨0, 10, 4⟩ okThreeWriter 3).chunk.size) ∧
    ((DownloadChunk.write ⟨5, 10, 10⟩ okThreeWriter 3).result = .ok 0 ∧
      (DownloadChunk.write ⟨5, 10, 10⟩ okThreeWriter 3).chunk = ⟨5, 10, 10⟩ ∧
      (DownloadChunk.write ⟨5, 10, 10⟩ okThreeWriter 3).calls = 0) := by
  have h1 := (claim_C7_write_invariant ⟨0, 10, 4⟩ okThreeWriter 3).2.1 (by decide) (by decide)
    (by intro n hn; injection hn with hn2; cases hn2; decide)
  have h2 := (claim_C7_write_invariant ⟨5, 10, 10⟩ okThreeWriter 3).2.2 (by decide)
  exact ⟨h1, h2⟩

/-! ### Claim C5 -/

/-- C5: for a positive configured segment size `C` and any count `n`,
`createChunks` produces `n` segments, segment `i` has
`startOffset = i * C` and `length = C`, its range header is exactly
`bytes=<i*C>-<(i+1)*C - 1>` (inclusive bounds), and the segments'
byte ranges tile `[0, n*C)` exactly: every offset below `n*C` lies in
exactly one segment's range, and ranges of distinct segments are
disjoint. -/
theorem claim_C5_createChunks (cfg : Config) (n i : Nat)
    (hC : 0 < cfg.chunkSizeB) (hi : i < n) :
    (createChunks cfg n).length = n ∧
    ((createChunks cfg n).getD i default).start = (i : Int) * cfg.chunkSizeB ∧
    ((createChunks cfg n).getD i default).size = cfg.chunkSizeB ∧
    ((createChunks cfg n).getD i default).getRange =
      "bytes=" ++ toString ((i : Int) * cfg.chunkSizeB) ++ "-"
        ++ toString (((i : Int) + 1) * cfg.chunkSizeB - 1) ∧
    (∀ off : Nat, off < n * cfg.chunkSizeB.toNat ↔
      ∃ j, j < n ∧ ((createChunks cfg n).getD j default).start ≤ (off : Int) ∧
        (off : Int) < ((createChunks cfg n).getD j default).start
          + ((createChunks cfg n).getD j default).size) ∧
    (∀ j j' : Nat, j < n → j' < n → j ≠ j' → ∀ off : Int,
      ¬(((createChunks cfg n).getD j default).start ≤ off ∧
        off < ((createChunks cfg n).getD j default).start
          + ((createChunks cfg n).getD j default).size ∧
        ((createChunks cfg n).getD j' default).start ≤ off ∧
        off < ((createChunks cfg n).getD j' default).start
          + ((createChunks cfg n).getD j' default).size)) := by
  have hCn : 0 < cfg.chunkSizeB.toNat := by omega
  have hCint : cfg.chunkSizeB = (cfg.chunkSizeB.toNat : Int) := by omega
  refine ⟨createChunks_length cfg n, ?_, ?_, ?_, ?_, ?_⟩
  · rw [createChunks_getD cfg hi]
  · rw [createChunks_getD cfg hi]
  · rw [createChunks_getD cfg hi]
    show "bytes=" ++ toString ((i : Int) * cfg.chunkSizeB) ++ "-"
        ++ toString ((i : Int) * cfg.chunkSizeB + cfg.chunkSizeB - 1) = _
    have harith : (i : Int) * cfg.chunkSizeB + cfg.chunkSizeB - 1 =
        ((i : Int) + 1) * cfg.chunkSizeB - 1 := by ring
    rw [harith]
  · intro off
    constructor
    · intro hoff
      obtain ⟨j, hj, h1, h2⟩ := (tile_cover hCn n off).mp hoff
      refine ⟨j, hj, ?_, ?_⟩
      · rw [createChunks_getD cfg hj]
        show (j : Int) * cfg.chunkSizeB ≤ (off : Int)
        rw [hCint]
        exact_mod_cast h1
      · rw [createChunks_getD cfg hj]
        show (off : Int) < (j : Int) * cfg.chunkSizeB + cfg.chunkSizeB
        rw [hCint]
        have h3 : (off : Int) < ((j : Int) + 1) * (cfg.chunkSizeB.toNat : Int) := by
          exact_mod_cast h2
        linarith [h3, mul_comm ((j : Int) + 1) ((cfg.chunkSizeB.toNat : Int))]
    · rintro ⟨j, hj, h1, h2⟩
      rw [createChunks_getD cfg hj] at h1 h2
      have h1a : (j : Int) * cfg.chunkSizeB ≤ (off : Int) := h1
      have h2a : (off : Int) < (j : Int) * cfg.chunkSizeB + cfg.chunkSizeB := h2
      apply (tile_cover hCn n off).mpr
      refine ⟨j, hj, ?_, ?_⟩
      · rw [hCint] at h1a
        exact_mod_cast h1a
      · rw [hCint] at h2a
        have h3 : (off : Int) < ((j : Int) + 1) * (cfg.chunkSizeB.toNat : Int) := by
          have harith : (j : Int) * (cfg.chunkSizeB.toNat : Int) + (cfg.chunkSizeB.toNat : Int) =
              ((j : Int) + 1) * (cfg.chunkSizeB.toNat : Int) := by ring
          rw [← harith]
          exact h2a
        exact_mod_cast h3
  · intro j j' hj hj' hne off
    rw [createChunks_getD cfg hj, createChunks_getD cfg hj']
    rcases Nat.lt_or_ge j j' with hlt | hge
    · exact ranges_disjoint hC hlt off
    · have hlt : j' < j := by omega
      intro hcon
      exact ranges_disjoint hC hlt off ⟨hcon.2.2.1, hcon.2.2.2, hcon.1, hcon.2.1⟩

theorem claim_C5_witness :
    (createChunks cfgFixed 5).length = 5 ∧
    ((createChunks cfgFixed 5).getD 2 default).start = 200 ∧
    ((createChunks cfgFixed 5).getD 2 default).getRange = "bytes=200-299" := by
  have h := claim_C5_createChunks cfgFixed 5 2 (by decide) (by decide)
  refine ⟨h.1, ?_, ?_⟩
  · rw [h.2.1]
    decide
  · rw [h.2.2.2.1]
    rfl

/-! ### Claim C4 -/

/-- C4: for every chunk list and configured bound `k`: if `k <= 0` or the
chunk count `n` does not exceed `k`, `batchChunks` yields exactly `n`
singleton batches in order; if `0 < k < n`, it yields contiguous,
order-preserving batches whose concatenation is the input list, at most
`k` batches, every batch nonempty of size at most `ceil(n/k)`, and every
batch except possibly the last of size exactly `ceil(n/k)`. -/
theorem claim_C4_batchChunks (cfg : Config) (chunks : List DownloadChunk) :
    ((cfg.maxConcurrentDownloads ≤ 0 ∨
        (chunks.length : Int) ≤ cfg.maxConcurrentDownloads) →
      batchChunks cfg chunks = chunks.map (fun chunk => [chunk]) ∧
      (batchChunks cfg chunks).length = chunks.length) ∧
    (0 < cfg.maxConcurrentDownloads →
      cfg.maxConcurrentDownloads < (chunks.length : Int) →
      (batchChunks cfg chunks).flatten = chunks ∧
      (batchChunks cfg chunks).length ≤ cfg.maxConcurrentDownloads.toNat ∧
      (∀ b ∈ (batchChunks cfg chunks).dropLast,
        b.length = ceilDiv chunks.length cfg.maxConcurrentDownloads.toNat) ∧
      (∀ b ∈ batchChunks cfg chunks,
        b ≠ [] ∧ b.length ≤ ceilDiv chunks.length cfg.maxConcurrentDownloads.toNat)) := by
  constructor
  · intro h
    have heq : batchChunks cfg chunks = chunks.map (fun chunk => [chunk]) := by
      rcases h with h1 | h2
      · rw [batchChunks, if_pos h1]
      · rw [batchChunks]
        by_cases h1 : cfg.maxConcurrentDownloads ≤ 0
        · rw [if_pos h1]
        · rw [if_neg h1, if_pos h2]
    exact ⟨heq, by rw [heq, List.length_map]⟩
  · intro hk hn
    have hk2 : 0 < cfg.maxConcurrentDownloads.toNat := by omega
    have hn2 : cfg.maxConcurrentDownloads.toNat < chunks.length := by omega
    have hlen : 0 < chunks.length := by omega
    have hper : 0 < ceilDiv chunks.length cfg.maxConcurrentDownloads.toNat :=
      ceilDiv_pos hlen hk2
    have heq : batchChunks cfg chunks =
        chunkify (ceilDiv chunks.length cfg.maxConcurrentDownloads.toNat) chunks := by
      rw [batchChunks, if_neg (by omega), if_neg (by omega)]
    rw [heq, chunkify]
    refine ⟨chunkifyGo_flatten hper chunks.length chunks le_rfl, ?_, ?_, ?_⟩
    · rw [chunkifyGo_length hper chunks.length chunks le_rfl]
      exact chunkify_batches_le hk2 hlen
    · exact chunkifyGo_dropLast hper chunks.length chunks le_rfl
    · exact chunkifyGo_mem hper chunks.length chunks le_rfl

theorem claim_C4_witness :
    (batchChunks cfgAuto (createChunks cfgFixed 3) =
      (createChunks cfgFixed 3).map (fun chunk => [chunk])) ∧
    ((batchChunks cfgFixed (createChunks cfgFixed 7)).flatten = createChunks cfgFixed 7 ∧
      (batchChunks cfgFixed (createChunks cfgFixed 7)).length ≤ 4) := by
  have h1 := (claim_C4_batchChunks cfgAuto (createChunks cfgFixed 3)).1
    (Or.inr (by decide))
  have h2 := (claim_C4_batchChunks cfgFixed (createChunks cfgFixed 7)).2
    (by decide) (by decide)
  exact ⟨h1.1, h2.1, h2.2.1⟩

/-! ### Unfolding helpers for the pipeline -/

theorem write_full {c : DownloadChunk} (h : c.size ≤ c.current) (w : Writer) (plen : Nat) :
    c.write w plen = ⟨.ok 0, c, 0⟩ := by
  rw [DownloadChunk.write, if_pos h]

theorem write_ok {c : DownloadChunk} (h : ¬ c.size ≤ c.current) {w : Writer} {plen n : Nat}
    (hw : w plen (c.start + c.current) = .ok n) :
    c.write w plen = ⟨.ok n, { c with current := c.current + n }, 1⟩ := by
  rw [DownloadChunk.write, if_neg h, hw]

theorem downloadPart_eq (env : Env) (a : Nat) (c : DownloadChunk) :
    downloadPart env a c =
      if (env.respond a c.start).status = 200 then
        ⟨.error (.partFail .rangeUnsupported), c, 0⟩
      else if (env.respond a c.start).status = 206 then
        match (c.write env.writeAt (env.respond a c.start).bodyLen).result with
        | .ok n =>
          ⟨.ok n, (c.write env.writeAt (env.respond a c.start).bodyLen).chunk,
            (c.write env.writeAt (env.respond a c.start).bodyLen).calls⟩
        | .error e =>
          ⟨.error (.partFail e), (c.write env.writeAt (env.respond a c.start).bodyLen).chunk,
            (c.write env.writeAt (env.respond a c.start).bodyLen).calls⟩
      else ⟨.error (.partFail (.partStatus (env.respond a c.start).status)), c, 0⟩ := rfl

theorem implDownload_eq (cfg : Config) (url out : String) (env : Env) :
    implDownload cfg url out env =
      { result :=
          match (retryGo env 0 cfg.maxRetries.toNat (initialPlan cfg env) none 0).error with
          | some e => .error (.downloadFail url out e)
          | none => .ok (retryGo env 0 cfg.maxRetries.toNat (initialPlan cfg env) none 0).written,
        state := (retryGo env 0 cfg.maxRetries.toNat (initialPlan cfg env) none 0).state,
        attempts := (retryGo env 0 cfg.maxRetries.toNat (initialPlan cfg env) none 0).attempts,
        requests := (retryGo env 0 cfg.maxRetries.toNat (initialPlan cfg env) none 0).requests,
        writes := (retryGo env 0 cfg.maxRetries.toNat (initialPlan cfg env) none 0).writes,
        inputs := (retryGo env 0 cfg.maxRetries.toNat (initialPlan cfg env) none 0).inputs,
        config := (determineNumberOfChunks cfg (env.contentLength.getD 0)).2 } := rfl

theorem facade_result_eq (cfg : Config) (url out : String) (env : Env) :
    (Downloader.download cfg url out env).result =
      match (implDownload cfg url out env).result with
      | .ok n => .ok n
      | .error e => .error (.downloadFail url out e) := rfl

theorem facade_config_eq (cfg : Config) (url out : String) (env : Env) :
    (Downloader.download cfg url out env).config = (implDownload cfg url out env).config := rfl

/-! ### Claim C6 -/

/-- C6: fetching a single segment fails with the range-unsupported error
exactly when the status is 200; assuming a functioning writer, it succeeds
exactly when the status is 206 — reading the body, writing it through the
writer at the segment's absolute offset `start + current` (unless the
segment is already full, in which case the write short-circuits to 0) and
returning the written count; and any other status yields the error carrying
that status code. -/
theorem claim_C6_downloadPart_status (env : Env) (a : Nat) (c : DownloadChunk)
    (hw : ∀ l o, ∃ n, env.writeAt l o = .ok n) :
    (((downloadPart env a c).result = .error (.partFail .rangeUnsupported)) ↔
      (env.respond a c.start).status = 200) ∧
    ((∃ n, (downloadPart env a c).result = .ok n) ↔
      (env.respond a c.start).status = 206) ∧
    ((env.respond a c.start).status = 206 →
      (c.current < c.size →
        ∃ n, env.writeAt (env.respond a c.start).bodyLen (c.start + c.current) = .ok n ∧
          (downloadPart env a c).result = .ok n ∧
          (downloadPart env a c).chunk = { c with current := c.current + (n : Int) }) ∧
      (c.size ≤ c.current →
        (downloadPart env a c).result = .ok 0 ∧ (downloadPart env a c).chunk = c)) ∧
    ((env.respond a c.start).status ≠ 200 → (env.respond a c.start).status ≠ 206 →
      (downloadPart env a c).result =
        .error (.partFail (.partStatus (env.respond a c.start).status))) := by
  by_cases h200 : (env.respond a c.start).status = 200
  · have hdp : downloadPart env a c = ⟨.error (.partFail .rangeUnsupported), c, 0⟩ := by
      rw [downloadPart_eq, if_pos h200]
    refine ⟨⟨fun _ => h200, fun _ => by rw [hdp]⟩, ⟨?_, ?_⟩, ?_, ?_⟩
    · rintro ⟨n, hn⟩
      rw [hdp] at hn
      exact absurd hn (by simp)
    · intro h206
      exact absurd (h200.symm.trans h206) (by decide)
    · intro h206
      exact absurd (h200.symm.trans h206) (by decide)
    · intro hne200 _
      exact absurd h200 hne200
  · by_cases h206 : (env.respond a c.start).status = 206
    · by_cases hfull : c.size ≤ c.current
      · have hwr := write_full hfull env.writeAt (env.respond a c.start).bodyLen
        have hdp : downloadPart env a c = ⟨.ok 0, c, 0⟩ := by
          rw [downloadPart_eq, if_neg h200, if_pos h206, hwr]
        refine ⟨⟨?_, ?_⟩, ⟨fun _ => h206, fun _ => ⟨0, by rw [hdp]⟩⟩, ?_, ?_⟩
        · intro hcon
          rw [hdp] at hcon
          exact absurd hcon (by simp)
        · intro h200x
          exact absurd h200x h200
        · intro _
          exact ⟨fun hlt => absurd hfull (by omega),
            fun _ => ⟨by rw [hdp], by rw [hdp]⟩⟩
        · intro _ hne206
          exact absurd h206 hne206
      · obtain ⟨n, hn⟩ := hw (env.respond a c.start).bodyLen (c.start + c.current)
        have hwr := write_ok hfull hn
        have hdp : downloadPart env a c =
            ⟨.ok n, { c with current := c.current + (n : Int) }, 1⟩ := by
          rw [downloadPart_eq, if_neg h200, if_pos h206, hwr]
        refine ⟨⟨?_, ?_⟩, ⟨fun _ => h206, fun _ => ⟨n, by rw [hdp]⟩⟩, ?_, ?_⟩
        · intro hcon
          rw [hdp] at hcon
          exact absurd hcon (by simp)
        · intro h200x
          exact absurd h200x h200
        · intro _
          exact ⟨fun _ => ⟨n, hn, by rw [hdp], by rw [hdp]⟩,
            fun hge => absurd hge hfull⟩
        · intro _ hne206
          exact absurd h206 hne206
    · have hdp : downloadPart env a c =
          ⟨.error (.partFail (.partStatus (env.respond a c.start).status)), c, 0⟩ := by
        rw [downloadPart_eq, if_neg h200, if_neg h206]
      refine ⟨⟨?_, ?_⟩, ⟨?_, ?_⟩, ?_, ?_⟩
      · intro hcon
        rw [hdp] at hcon
        have h2 : JsError.partFail (.partStatus (env.respond a c.start).status) =
            JsError.partFail .rangeUnsupported := by
          injection hcon
        injection h2 with h3
        exact absurd h3 (by simp)
      · intro h200x
        exact absurd h200x h200
      · rintro ⟨n, hn⟩
        rw [hdp] at hn
        exact absurd hn (by simp)
      · intro h206x
        exact absurd h206x h206
      · intro h206x
        exact absurd h206x h206
      · intro _ _
        rw [hdp]

/-- A server that answers every ranged request with 206 and a 50-byte
body; the writer reports every byte written. -/
def env206 : Env :=
  { contentLength := some 100,
    respond := fun _ _ => ⟨206, 50⟩,
    writeAt := fun l _ => .ok l }

theorem claim_C6_witness :
    (downloadPart env206 0 ⟨0, 100, 0⟩).result = .ok 50 ∧
    (downloadPart env206 0 ⟨0, 100, 0⟩).chunk = ⟨0, 100, 50⟩ := by
  have h := claim_C6_downloadPart_status env206 0 ⟨0, 100, 0⟩ (fun l o => ⟨l, rfl⟩)
  obtain ⟨n, hn, hres, hchunk⟩ := (h.2.2.1 rfl).1 (by decide)
  have hn2 : (Except.ok 50 : Except JsError Nat) = .ok n := hn
  injection hn2 with hn3
  cases hn3
  exact ⟨hres, hchunk⟩

/-! ### Claim C9 -/

/-- C9: with `maxRetries <= 0` and successful size discovery, `download`
resolves with 0 bytes written: the retry loop body never executes — 0
attempts, 0 ranged requests, 0 writer calls — no error is recorded, the
planned chunk states are untouched, and the facade resolves `.ok 0`. -/
theorem claim_C9_no_retries (cfg : Config) (url out : String) (env : Env)
    (h : cfg.maxRetries ≤ 0) :
    (Downloader.download cfg url out env).result = .ok 0 ∧
    (implDownload cfg url out env).attempts = 0 ∧
    (implDownload cfg url out env).requests = 0 ∧
    (implDownload cfg url out env).writes = 0 ∧
    (implDownload cfg url out env).state = initialPlan cfg env := by
  have h0 : cfg.maxRetries.toNat = 0 := by omega
  have hres : (implDownload cfg url out env).result = .ok 0 := by
    rw [implDownload_eq, h0]
    rfl
  refine ⟨?_, ?_, ?_, ?_, ?_⟩
  · rw [facade_result_eq, hres]
  · rw [implDownload_eq, h0]
    rfl
  · rw [implDownload_eq, h0]
    rfl
  · rw [implDownload_eq, h0]
    rfl
  · rw [implDownload_eq, h0]
    rfl

/-- A configuration with no retry budget. -/
def cfgNoRetry : Config :=
  { maxRetries := 0,
    maxConcurrentDownloads := 4,
    partDeterminer := fun _ => 7,
    chunkSizeDeterminer := fun _ => 0,
    chunkSizeB := 100 }

theorem claim_C9_witness :
    (Downloader.download cfgNoRetry "u" "o" env206).result = .ok 0 ∧
    (implDownload cfgNoRetry "u" "o" env206).attempts = 0 ∧
    (implDownload cfgNoRetry "u" "o" env206).requests = 0 := by
  have h := claim_C9_no_retries cfgNoRetry "u" "o" env206 (by decide)
  exact ⟨h.1, h.2.1, h.2.2.1⟩

/-! ### Claim C10 -/

/-- C10: the segment-size side effect of planning persists across download
calls on the same configuration object: after a download whose planning ran
with `chunkSizeB <= 0` on discovered size `S1` (with a positive
`partDeterminer S1`), the shared configuration's `chunkSizeB` equals
`ceil(S1 / partDeterminer S1)` and is positive (as `S1 > 0`), so planning
in any subsequent download on that configuration takes the fixed-size
branch: it returns `ceil(S2 / chunkSizeB)`, leaves the configuration
unchanged, and no longer depends on `partDeterminer` at all. -/
theorem claim_C10_config_persists (cfg : Config) (url out : String)
    (env1 env2 : Env) (S1 : Nat)
    (h0 : cfg.chunkSizeB ≤ 0) (hcl : env1.contentLength = some S1)
    (hS1 : 0 < S1) (hpd : 0 < cfg.partDeterminer S1) :
    (Downloader.download cfg url out env1).config =
      { cfg with chunkSizeB := (ceilDiv S1 (cfg.partDeterminer S1) : Int) } ∧
    0 < (Downloader.download cfg url out env1).config.chunkSizeB ∧
    (determineNumberOfChunks (Downloader.download cfg url out env1).config
        (env2.contentLength.getD 0)).1 =
      ceilDiv (env2.contentLength.getD 0) (ceilDiv S1 (cfg.partDeterminer S1)) ∧
    (determineNumberOfChunks (Downloader.download cfg url out env1).config
        (env2.contentLength.getD 0)).2 =
      (Downloader.download cfg url out env1).config ∧
    (∀ pd : Nat → Nat,
      (determineNumberOfChunks
          { (Downloader.download cfg url out env1).config with partDeterminer := pd }
          (env2.contentLength.getD 0)).1 =
        ceilDiv (env2.contentLength.getD 0) (ceilDiv S1 (cfg.partDeterminer S1))) := by
  have hk : 0 < ceilDiv S1 (cfg.partDeterminer S1) := ceilDiv_pos hS1 hpd
  have hconf : (Downloader.download cfg url out env1).config =
      { cfg with chunkSizeB := (ceilDiv S1 (cfg.partDeterminer S1) : Int) } := by
    rw [facade_config_eq, implDownload_eq]
    show (determineNumberOfChunks cfg (env1.contentLength.getD 0)).2 = _
    rw [hcl]
    show (determineNumberOfChunks cfg S1).2 = _
    rw [determineNumberOfChunks, if_pos h0]
  have hpos : 0 < (Downloader.download cfg url out env1).config.chunkSizeB := by
    rw [hconf]
    show 0 < ((ceilDiv S1 (cfg.partDeterminer S1) : Nat) : Int)
    exact_mod_cast hk
  refine ⟨hconf, hpos, ?_, ?_, ?_⟩
  · rw [hconf]
    rw [determineNumberOfChunks, if_neg (by show ¬ ((ceilDiv S1 (cfg.partDeterminer S1) : Nat) : Int) ≤ 0; omega)]
    show ceilDiv (env2.contentLength.getD 0)
        ((ceilDiv S1 (cfg.partDeterminer S1) : Nat) : Int).toNat = _
    congr 1
  · rw [hconf]
    rw [determineNumberOfChunks, if_neg (by show ¬ ((ceilDiv S1 (cfg.partDeterminer S1) : Nat) : Int) ≤ 0; omega)]
  · intro pd
    rw [hconf]
    rw [determineNumberOfChunks, if_neg (by show ¬ ((ceilDiv S1 (cfg.partDeterminer S1) : Nat) : Int) ≤ 0; omega)]
    show ceilDiv (env2.contentLength.getD 0)
        ((ceilDiv S1 (cfg.partDeterminer S1) : Nat) : Int).toNat = _
    congr 1

/-- A probe environment reporting a 250-byte resource. -/
def envS250 : Env :=
  { contentLength := some 250,
    respond := fun _ _ => ⟨206, 50⟩,
    writeAt := fun l _ => .ok l }

theorem claim_C10_witness :
    (Downloader.download cfgAuto "u" "o" envS250).config.chunkSizeB = 125 ∧
    (determineNumberOfChunks (Downloader.download cfgAuto "u" "o" envS250).config
        (env206.contentLength.getD 0)).1 = 1 := by
  have h := claim_C10_config_persists cfgAuto "u" "o" envS250 env206 250
    (by decide) rfl (by decide) (by decide)
  constructor
  · rw [h.1]
    decide
  · rw [h.2.2.1]
    decide

/-! ### Claim C1 (corrected) -/

/-- A two-retry, fixed-size configuration with singleton batches. -/
def cfgRetry : Config :=
  { maxRetries := 2,
    maxConcurrentDownloads := 0,
    partDeterminer := fun _ => 1,
    chunkSizeDeterminer := fun _ => 0,
    chunkSizeB := 100 }

/-- A 200-byte resource whose second segment fails (HTTP 500) on the first
attempt only; all other ranged requests succeed with full 100-byte bodies. -/
def envRetry : Env :=
  { contentLength := some 200,
    respond := fun a start => if a = 0 ∧ start = 100 then ⟨500, 0⟩ else ⟨206, 100⟩,
    writeAt := fun l _ => .ok l }

/-- Refutes C1 as stated: in the `envRetry` scenario, attempt 0 fully
writes the first segment and then fails on the second; attempt 1 runs on
the SAME segment objects — its input carries `writtenSoFar = 100` on the
first segment instead of fresh segments with `writtenSoFar = 0` — and the
download consequently resolves with only 100 counted bytes instead of 200
(the first segment's retry write short-circuits to 0). -/
theorem claim_C1_counterexample :
    (implDownload cfgRetry "u" "o" envRetry).inputs =
      [[[⟨0, 100, 0⟩], [⟨100, 100, 0⟩]], [[⟨0, 100, 100⟩], [⟨100, 100, 0⟩]]] ∧
    ¬ (∀ b ∈ (implDownload cfgRetry "u" "o" envRetry).inputs.getD 1 [],
        ∀ c ∈ b, c.current = 0) ∧
    (Downloader.download cfgRetry "u" "o" envRetry).result = .ok 100 := by
  decide

/-- C1 (amended): planning runs ONCE per download, before the retry loop:
the first attempt's input is the single initially built segment/batch plan
(fresh segments with `writtenSoFar = 0` by construction), and every later
attempt runs on exactly the segment objects and batch partition the
previous attempt left behind — mutated `writtenSoFar` values persist
across retries; segments and batches are never rebuilt. -/
theorem claim_C1_retry_reuses_plan (cfg : Config) (url out : String) (env : Env) :
    (0 < cfg.maxRetries →
      (implDownload cfg url out env).inputs.getD 0 [] = initialPlan cfg env) ∧
    (∀ i, i + 1 < (implDownload cfg url out env).inputs.length →
      (implDownload cfg url out env).inputs.getD (i + 1) [] =
        stepBatches env i ((implDownload cfg url out env).inputs.getD i [])) := by
  have himpl : (implDownload cfg url out env).inputs =
      (retryGo env 0 cfg.maxRetries.toNat (initialPlan cfg env) none 0).inputs := by
    rw [implDownload_eq]
  constructor
  · intro h
    obtain ⟨m, hm⟩ : ∃ m, cfg.maxRetries.toNat = m + 1 :=
      ⟨cfg.maxRetries.toNat - 1, by omega⟩
    rw [himpl, hm]
    exact retryGo_inputs_head env m 0 (initialPlan cfg env) none 0
  · intro i hlen
    rw [himpl] at hlen ⊢
    have hchain := retryGo_inputs_chain env cfg.maxRetries.toNat 0
      (initialPlan cfg env) none 0 i hlen
    rw [Nat.zero_add] at hchain
    exact hchain

theorem claim_C1_witness :
    (implDownload cfgRetry "u" "o" envRetry).inputs.getD 0 [] =
      initialPlan cfgRetry envRetry ∧
    (implDownload cfgRetry "u" "o" envRetry).inputs.getD 1 [] =
      stepBatches envRetry 0 ((implDownload cfgRetry "u" "o" envRetry).inputs.getD 0 []) := by
  have h := claim_C1_retry_reuses_plan cfgRetry "u" "o" envRetry
  exact ⟨h.1 (by decide), h.2 0 (by decide)⟩

/-! ### Claim C2 -/

/-- C2: if every attempt of a download fails, the facade rejects only
after exactly `maxRetries` attempts, and the surfaced rejection is the
LAST attempt's error wrapped in the implementation's and the facade's
download-context wrappers; conversely, the retry loop stops at the first
attempt that completes without error, resolving with that attempt's byte
count after exactly that many attempts. -/
theorem claim_C2_retry_bound (cfg : Config) (url out : String) (env : Env)
    (E : Nat → JsError) :
    (0 < cfg.maxRetries →
      (∀ i, i < cfg.maxRetries.toNat →
        (execAttempt env i (attemptStateFrom env 0 (initialPlan cfg env) i)).result =
          .error (E i)) →
      (Downloader.download cfg url out env).result =
        .error (.downloadFail url out (.downloadFail url out
          (E (cfg.maxRetries.toNat - 1)))) ∧
      (implDownload cfg url out env).attempts = cfg.maxRetries.toNat) ∧
    (∀ (j n : Nat), (j : Int) < cfg.maxRetries →
      (∀ i, i < j → ∃ e,
        (execAttempt env i (attemptStateFrom env 0 (initialPlan cfg env) i)).result =
          .error e) →
      (execAttempt env j (attemptStateFrom env 0 (initialPlan cfg env) j)).result = .ok n →
      (Downloader.download cfg url out env).result = .ok n ∧
      (implDownload cfg url out env).attempts = j + 1) := by
  constructor
  · intro hr hfail
    have hr0 : 0 < cfg.maxRetries.toNat := by omega
    have hfail2 : ∀ j, j < cfg.maxRetries.toNat →
        (execAttempt env (0 + j) (attemptStateFrom env 0 (initialPlan cfg env) j)).result =
          .error (E (0 + j)) := by
      intro j hj
      rw [Nat.zero_add]
      exact hfail j hj
    have hloop := retryGo_all_fail env E cfg.maxRetries.toNat 0
      (initialPlan cfg env) none 0 hr0 hfail2
    have herr : (retryGo env 0 cfg.maxRetries.toNat (initialPlan cfg env) none 0).error =
        some (E (cfg.maxRetries.toNat - 1)) := by
      rw [hloop.1]
      congr 2
      omega
    have hires : (implDownload cfg url out env).result =
        .error (.downloadFail url out (E (cfg.maxRetries.toNat - 1))) := by
      rw [implDownload_eq]
      show (match (retryGo env 0 cfg.maxRetries.toNat (initialPlan cfg env) none 0).error with
        | some e => Except.error (JsError.downloadFail url out e)
        | none =>
          Except.ok (retryGo env 0 cfg.maxRetries.toNat (initialPlan cfg env) none 0).written) = _
      rw [herr]
    constructor
    · rw [facade_result_eq, hires]
    · rw [implDownload_eq]
      show (retryGo env 0 cfg.maxRetries.toNat (initialPlan cfg env) none 0).attempts = _
      exact hloop.2.1
  · intro j n hj hfailj hok
    have hjr : j < cfg.maxRetries.toNat := by omega
    have hfail2 : ∀ t, t < j → ∃ e,
        (execAttempt env (0 + t) (attemptStateFrom env 0 (initialPlan cfg env) t)).result =
          .error e := by
      intro t ht
      rw [Nat.zero_add]
      exact hfailj t ht
    have hok2 : (execAttempt env (0 + j)
        (attemptStateFrom env 0 (initialPlan cfg env) j)).result = .ok n := by
      rw [Nat.zero_add]
      exact hok
    have hloop := retryGo_first_ok env j cfg.maxRetries.toNat 0
      (initialPlan cfg env) none 0 n hfail2 hok2 hjr
    have hires : (implDownload cfg url out env).result = .ok n := by
      rw [implDownload_eq]
      show (match (retryGo env 0 cfg.maxRetries.toNat (initialPlan cfg env) none 0).error with
        | some e => Except.error (JsError.downloadFail url out e)
        | none =>
          Except.ok (retryGo env 0 cfg.maxRetries.toNat (initialPlan cfg env) none 0).written) = _
      rw [hloop.1, hloop.2.1]
    constructor
    · rw [facade_result_eq, hires]
    · rw [implDownload_eq]
      show (retryGo env 0 cfg.maxRetries.toNat (initialPlan cfg env) none 0).attempts = _
      exact hloop.2.2

/-- A server that fails every ranged request with HTTP 500. -/
def envFailAll : Env :=
  { contentLength := some 100,
    respond := fun _ _ => ⟨500, 0⟩,
    writeAt := fun l _ => .ok l }

theorem claim_C2_witness :
    ((Downloader.download cfgRetry "u" "o" envFailAll).result =
      .error (.downloadFail "u" "o" (.downloadFail "u" "o"
        (.batchFail (.partFail (.partStatus 500))))) ∧
      (implDownload cfgRetry "u" "o" envFailAll).attempts = 2) ∧
    ((Downloader.download cfgRetry "u" "o" envRetry).result = .ok 100 ∧
      (implDownload cfgRetry "u" "o" envRetry).attempts = 2) := by
  constructor
  · exact (claim_C2_retry_bound cfgRetry "u" "o" envFailAll
      (fun _ => .batchFail (.partFail (.partStatus 500)))).1 (by decide) (by decide)
  · exact (claim_C2_retry_bound cfgRetry "u" "o" envRetry
      (fun _ => .batchFail (.partFail (.partStatus 500)))).2 1 100 (by decide)
      (fun i hi => by
        have hi0 : i = 0 := by omega
        subst hi0
        exact ⟨.batchFail (.partFail (.partStatus 500)), by decide⟩) (by decide)

/-! ### Claim C8 (corrected) -/

/-- A server reporting no content-length and answering every ranged
request with HTTP 416. -/
def envNoLen : Env :=
  { contentLength := none,
    respond := fun _ _ => ⟨416, 0⟩,
    writeAt := fun l _ => .ok l }

/-- Refutes C8 as stated: with no reported content-length and the default
configuration, the download does NOT reject at discovery — it plans one
zero-length segment, issues a ranged request on every one of its 3
attempts, and the rejection that surfaces is the execution step's status
error (416 here) under the download-context wrappers, not a size-parsing
error. -/
theorem claim_C8_counterexample :
    (implDownload defaultDownloaderConfig "u" "o" envNoLen).requests = 3 ∧
    (Downloader.download defaultDownloaderConfig "u" "o" envNoLen).result =
      .error (.downloadFail "u" "o" (.downloadFail "u" "o"
        (.batchFail (.partFail (.partStatus 416))))) := by
  decide

theorem runBatchGo_cons (env : Env) (a : Nat) (c : DownloadChunk)
    (cs : List DownloadChunk) :
    runBatchGo env a (c :: cs) =
      match (downloadPart env a c).result with
      | .error e =>
        ⟨.error e, (downloadPart env a c).chunk :: cs, 1, (downloadPart env a c).writes⟩
      | .ok n =>
        { result :=
            match (runBatchGo env a cs).result with
            | .ok m => .ok (n + m)
            | .error e => .error e,
          chunks := (downloadPart env a c).chunk :: (runBatchGo env a cs).chunks,
          requests := 1 + (runBatchGo env a cs).requests,
          writes := (downloadPart env a c).writes + (runBatchGo env a cs).writes } := rfl

theorem runBatchGo_requests_one (env : Env) (a : Nat) (c : DownloadChunk) :
    (runBatchGo env a [c]).requests = 1 := by
  rw [runBatchGo_cons]
  cases hres : (downloadPart env a c).result with
  | ok n => rfl
  | error e => rfl

theorem execAttempt_requests_one (env : Env) (a : Nat) (c : DownloadChunk) :
    (execAttempt env a [[c]]).requests = 1 := by
  show (runBatchGo env a [c]).requests = 1
  exact runBatchGo_requests_one env a c

/-- C8 (amended): when the resource size is 0 or the content-length is
unreported, size discovery does NOT fail: `getContentLength` substitutes
the string "0", the parsed size is 0, and the download proceeds to plan —
under the default configuration a single zero-length segment in one batch
— and issues a ranged GET request on the first attempt; the pipeline is
total, and any eventual rejection comes from the execution step. -/
theorem claim_C8_zero_size (url out : String) (env : Env)
    (h : env.contentLength = none ∨ env.contentLength = some 0) :
    env.contentLength.getD 0 = 0 ∧
    (determineNumberOfChunks defaultDownloaderConfig (env.contentLength.getD 0)).1 = 1 ∧
    initialPlan defaultDownloaderConfig env = [[⟨0, 0, 0⟩]] ∧
    1 ≤ (implDownload defaultDownloaderConfig url out env).requests := by
  have hsize : env.contentLength.getD 0 = 0 := by
    rcases h with h1 | h1
    · rw [h1]
      rfl
    · rw [h1]
      rfl
  have hplan : initialPlan defaultDownloaderConfig env =
      batchChunks
        (determineNumberOfChunks defaultDownloaderConfig (env.contentLength.getD 0)).2
        (createChunks
          (determineNumberOfChunks defaultDownloaderConfig (env.contentLength.getD 0)).2
          (determineNumberOfChunks defaultDownloaderConfig (env.contentLength.getD 0)).1) := rfl
  have hplan2 : initialPlan defaultDownloaderConfig env = [[⟨0, 0, 0⟩]] := by
    rw [hplan, hsize]
    decide
  refine ⟨hsize, by rw [hsize]; decide, hplan2, ?_⟩
  rw [implDownload_eq]
  show 1 ≤ (retryGo env 0 (3 : Int).toNat
    (initialPlan defaultDownloaderConfig env) none 0).requests
  rw [hplan2]
  show 1 ≤ (retryGo env 0 (2 + 1) [[⟨0, 0, 0⟩]] none 0).requests
  cases hres : (execAttempt env 0 [[⟨0, 0, 0⟩]]).result with
  | ok n =>
    rw [retryGo_succ_ok hres]
    show 1 ≤ (execAttempt env 0 [[⟨0, 0, 0⟩]]).requests
    rw [execAttempt_requests_one]
  | error e =>
    rw [retryGo_succ_error hres]
    show 1 ≤ (execAttempt env 0 [[⟨0, 0, 0⟩]]).requests +
      (retryGo env 1 2 (stepBatches env 0 [[⟨0, 0, 0⟩]]) (some e) 0).requests
    have h1 := execAttempt_requests_one env 0 ⟨0, 0, 0⟩
    omega

theorem claim_C8_witness :
    envNoLen.contentLength.getD 0 = 0 ∧
    initialPlan defaultDownloaderConfig envNoLen = [[⟨0, 0, 0⟩]] ∧
    1 ≤ (implDownload defaultDownloaderConfig "u" "o" envNoLen).requests := by
  have h := claim_C8_zero_size "u" "o" envNoLen (Or.inl rfl)
  exact ⟨h.1, h.2.2.1, h.2.2.2⟩

end TsDownloader
